import Mathlib

/-!
Verification development for the lazyflow/volumina tiled rendering and
cache-coherency engine.

Part 1 embeds `src/lazyflow/operators/opCache.py`: the cache capability
hierarchy `OpCache` → `OpObservableCache` → `OpManagedCache` together with
the `MemInfoNode` report record.  Python's dynamic dispatch is embedded by
tagging every object with its most-derived capability (`CKind`) and storing,
per object, the values its overridden observable methods return.

Part 2 embeds `src/volumina/imageScene2D.py`: the `ImageScene2D` paint /
invalidation protocol over per-tile patches with three version counters.
-/

namespace Lazyflow

/-- The most-derived capability class of an object in the cache hierarchy:
a plain (non-cache) operator, `OpCache`, `OpObservableCache`, or
`OpManagedCache`. -/
inductive CKind where
  | plainOp
  | cache
  | observable
  | managed
deriving DecidableEq, Repr

/-- An object of the operator/cache hierarchy.  `used`, `frac` and
`lastAccess` record the values the object's (overridden) `usedMemory`,
`fractionOfUsedMemoryDirty` and `lastAccessTime` methods return when
dispatched on it; `children` is the operator's ordered `children` list,
which may contain non-cache objects. -/
inductive CObj where
  | node (kind : CKind) (name : String) (ident : Nat)
         (used : Int) (frac : Rat) (lastAccess : Rat)
         (children : List CObj)

def CObj.kind : CObj → CKind
  | .node k _ _ _ _ _ _ => k

def CObj.name : CObj → String
  | .node _ nm _ _ _ _ _ => nm

def CObj.ident : CObj → Nat
  | .node _ _ i _ _ _ _ => i

def CObj.used : CObj → Int
  | .node _ _ _ u _ _ _ => u

def CObj.frac : CObj → Rat
  | .node _ _ _ _ f _ _ => f

def CObj.lastAccess : CObj → Rat
  | .node _ _ _ _ _ la _ => la

def CObj.children : CObj → List CObj
  | .node _ _ _ _ _ _ cs => cs

/-- `isinstance(·, OpCache)` -/
def isCache (c : CObj) : Bool :=
  match c.kind with
  | .plainOp => false
  | .cache => true
  | .observable => true
  | .managed => true

/-- `isinstance(·, OpObservableCache)` -/
def isObservable (c : CObj) : Bool :=
  match c.kind with
  | .plainOp => false
  | .cache => false
  | .observable => true
  | .managed => true

/-- The dispatched result of calling `usedMemory()` on an object. -/
def CObj.usedMemory (c : CObj) : Int := c.used

set_option linter.unusedVariables false in
/-- Embeds the default body of `OpObservableCache.usedMemory`
(opCache.py lines 86-95): a running total over children that are
`OpObservableCache` is accumulated, and then the literal `0` is returned
(line 95), discarding the total. -/
def defaultUsedMemory (children : List CObj) : Int :=
  let total := children.foldl
    (fun acc child => if isObservable child then acc + child.usedMemory else acc) 0
  0

/-- The running `total` accumulated inside `defaultUsedMemory` before the
`return` statement: the sum of `usedMemory()` over observable children. -/
def observableChildrenSum (children : List CObj) : Int :=
  children.foldl
    (fun acc child => if isObservable child then acc + child.usedMemory else acc) 0

/-- The value the specification says `usedMemory()` returns for a cache with
own byte count `own`: own bytes plus the sum over observable children. -/
def specifiedUsedMemory (own : Int) (children : List CObj) : Int :=
  own + observableChildrenSum children

/-- Embeds the default body of `OpManagedCache.freeMemory`
(opCache.py lines 133-148): it raises `NotImplementedError`, never
returning a byte count. -/
def defaultFreeMemory : Except String Nat :=
  Except.error "No default implementation for freeMemory()"

/-- Embeds `MemInfoNode` (opCache.py lines 155-193).  Every field defaults
to `none` (`None` in the source); `children` starts empty. -/
inductive MemInfoNode where
  | mk (type : Option CKind) (ident : Option Nat) (usedMemory : Option Int)
       (dtype : Option Unit) (roi : Option Unit)
       (fractionOfUsedMemoryDirty : Option Rat) (lastAccessTime : Option Rat)
       (name : Option String) (info : Option Unit)
       (children : List MemInfoNode)

/-- A freshly constructed `MemInfoNode()`. -/
def MemInfoNode.empty : MemInfoNode :=
  .mk none none none none none none none none none []

def MemInfoNode.type : MemInfoNode → Option CKind
  | .mk t _ _ _ _ _ _ _ _ _ => t

def MemInfoNode.ident : MemInfoNode → Option Nat
  | .mk _ i _ _ _ _ _ _ _ _ => i

def MemInfoNode.usedMemory : MemInfoNode → Option Int
  | .mk _ _ u _ _ _ _ _ _ _ => u

def MemInfoNode.fractionOfUsedMemoryDirty : MemInfoNode → Option Rat
  | .mk _ _ _ _ _ f _ _ _ _ => f

def MemInfoNode.lastAccessTime : MemInfoNode → Option Rat
  | .mk _ _ _ _ _ _ la _ _ _ => la

def MemInfoNode.name : MemInfoNode → Option String
  | .mk _ _ _ _ _ _ _ nm _ _ => nm

def MemInfoNode.children : MemInfoNode → List MemInfoNode
  | .mk _ _ _ _ _ _ _ _ _ ch => ch

mutual

/-- The dynamically dispatched `generateReport` call: for structural
recursion the super-call chains of the three class bodies are inlined here;
the per-class method embeddings `opCacheGenerateReport`,
`opObservableGenerateReport` and `opManagedGenerateReport` below are proved
equal to this dispatcher on objects of the corresponding kind. -/
def genReport : CObj → MemInfoNode → MemInfoNode
  | .node k nm i u f la cs, .mk _t _i u0 d r f0 la0 _n inf _ch =>
    match k with
    | .plainOp => .mk _t _i u0 d r f0 la0 _n inf _ch
    | .cache => .mk (some .cache) (some i) u0 d r f0 la0 (some nm) inf (genChildren cs)
    | .observable =>
        .mk (some .observable) (some i) (some u) d r (some f) la0 (some nm) inf (genChildren cs)
    | .managed =>
        .mk (some .managed) (some i) (some u) d r (some f) (some la) (some nm) inf (genChildren cs)

/-- The child-report loop of `OpCache.generateReport` (opCache.py 50-56):
for each child that is an `OpCache`, a fresh `MemInfoNode` is filled by the
child's own (dispatched) `generateReport` and appended, in child order. -/
def genChildren : List CObj → List MemInfoNode
  | [] => []
  | c :: cs =>
      if isCache c then genReport c MemInfoNode.empty :: genChildren cs
      else genChildren cs

end

/-- Embeds `OpCache.generateReport` (opCache.py lines 49-60): sets
`children`, `type`, `id` and `name` on the given node, leaving the other
fields as they were. -/
def opCacheGenerateReport : CObj → MemInfoNode → MemInfoNode
  | .node k nm i _u _f _la cs, .mk _t _i u0 d r f0 la0 _n inf _ch =>
    .mk (some k) (some i) u0 d r f0 la0 (some nm) inf (genChildren cs)

/-- Embeds `OpObservableCache.generateReport` (opCache.py lines 109-113):
calls the superclass body first, then fills `usedMemory` and
`fractionOfUsedMemoryDirty`. -/
def opObservableGenerateReport (c : CObj) (node : MemInfoNode) : MemInfoNode :=
  match opCacheGenerateReport c node with
  | .mk t i _u d r _f la0 n inf ch => .mk t i (some c.used) d r (some c.frac) la0 n inf ch

/-- Embeds `OpManagedCache.generateReport` (opCache.py lines 150-152):
calls the superclass body first, then fills `lastAccessTime`. -/
def opManagedGenerateReport (c : CObj) (node : MemInfoNode) : MemInfoNode :=
  match opObservableGenerateReport c node with
  | .mk t i u d r f _la n inf ch => .mk t i u d r f (some c.lastAccess) n inf ch

/-- Which registration call `OpCache._after_init` makes on the
`CacheMemoryManager`. -/
inductive RegPath where
  | firstClass
  | nested
deriving DecidableEq, Repr

/-- Embeds the registration choice of `OpCache._after_init`
(opCache.py lines 62-74): first-class if there is no parent or the parent is
not an `OpCache`, nested otherwise. -/
def registrationPath (parent : Option CObj) : RegPath :=
  match parent with
  | none => .firstClass
  | some p => if isCache p then .nested else .firstClass

/-- Observable events of constructing a cache operator. -/
inductive InitEvent where
  | constructed
  | registered (path : RegPath)
deriving DecidableEq, Repr

/-- Modelled from the spec: the lazyflow graph framework (`lazyflow.graph`,
not under src) invokes `_after_init` exactly once per operator, after the
operator is fully constructed; the registration performed there
(opCache.py lines 62-74, with the path chosen by `registrationPath`) is
therefore the single event following construction. -/
def cacheInitTrace (parent : Option CObj) : List InitEvent :=
  [InitEvent.constructed, InitEvent.registered (registrationPath parent)]

/-- Whether an init event is a registration with the cache registry. -/
def isRegistration : InitEvent → Bool
  | .constructed => false
  | .registered _ => true

/-- Example input: an observable cache child whose overridden `usedMemory`
returns 5 bytes. -/
def exObsChild : CObj := CObj.node .observable "child" 1 5 0 0 []

/-- Example input: a managed cache with one non-cache child and one cache
child. -/
def exManaged : CObj :=
  CObj.node .managed "managed" 2 7 (1/2) 100
    [CObj.node .plainOp "op" 3 0 0 0 [], exObsChild]

end Lazyflow

namespace Volumina

/-- A point in scene coordinates (`QPointF`; coordinates kept as integers —
no claim depends on sub-pixel positions). -/
structure Point where
  x : Int
  y : Int
deriving DecidableEq, Repr

def Point.sub (a b : Point) : Point := ⟨a.x - b.x, a.y - b.y⟩

/-- The contents of a patch's `QImage` buffer: blank after `image.fill(0)`,
or the previous contents with one more line painted on it
(`painter.drawLine`, with the pen abstracted to a tag). -/
inductive Img where
  | blank
  | line (base : Img) (p q : Point) (pen : Nat)
deriving DecidableEq, Repr

/-- One tile patch of a `TiledImageLayer`: the three version counters
`dataVer`, `imgVer` (rendered) and `reqVer` (requested), the image buffer,
and the state of the patch's mutex. -/
structure TilePatch where
  dataVer : Nat
  imgVer : Nat
  reqVer : Nat
  image : Img
  locked : Bool
deriving DecidableEq, Repr

/-- `p.lock()` -/
def TilePatch.lock (p : TilePatch) : TilePatch := { p with locked := true }

/-- `p.unlock()` -/
def TilePatch.unlock (p : TilePatch) : TilePatch := { p with locked := false }

/-- `p.dataVer += 1` -/
def bumpDataVer (p : TilePatch) : TilePatch := { p with dataVer := p.dataVer + 1 }

/-- A freshly initialized patch: the three version counters start equal. -/
def TilePatch.fresh (v : Nat) : TilePatch :=
  { dataVer := v, imgVer := v, reqVer := v, image := Img.blank, locked := false }

/-- The spec's staleness notion: a patch is stale exactly when its rendered
version differs from its data version. -/
def TilePatch.stale (p : TilePatch) : Prop := p.imgVer ≠ p.dataVer

/-- The spec's pending-request notion: requested at the current data version
while not yet rendered at it. -/
def TilePatch.pending (p : TilePatch) : Prop :=
  p.reqVer = p.dataVer ∧ p.imgVer ≠ p.dataVer

/-- The request condition tested in `drawBackground`
(imageScene2D.py line 301). -/
abbrev needsRequest (p : TilePatch) : Prop :=
  p.imgVer ≠ p.dataVer ∧ p.reqVer ≠ p.dataVer

/-- A `QRect` / `QRectF` argument: either invalid (the default `QRect()`,
denoting no region) or a valid rectangle, abstracted to a token interpreted
by the scene's tiling geometry. -/
inductive QRect where
  | invalid
  | valid (r : Nat)
deriving DecidableEq, Repr

def QRect.isValid : QRect → Bool
  | .invalid => false
  | .valid _ => true

/-- Externally observable effects of the scene's operations: recompute
requests handed to the render thread, `cancelAll`, and scheduled patch
redraws (`invalidate`). -/
inductive Event where
  | request (layerNr tileId : Nat)
  | cancelAll
  | redraw (tileId : Nat)
deriving DecidableEq, Repr

/-- The `ImageScene2D` state.  The tiling (`volumina.tiling.Tiling`, not
under src) is modelled from the spec: `numTiles` tiles with stable dense
ids; `geom r` gives the ids of tiles intersecting the valid rectangle
token `r` (abstract geometry); `containsQ p` is `containsF`, the id of the
tile containing a point, if any; `topLeftQ t` is
`_imageRectF[t].topLeft()`.  Tile stores are total maps from ids; the
Python lists are only ever indexed with in-range ids supplied by the
tiling. -/
@[ext]
structure Scene where
  numTiles : Nat
  numLayers : Nat
  geom : Nat → List Nat
  containsQ : Point → Option Nat
  topLeftQ : Nat → Point
  imageLayers : Nat → Nat → TilePatch
  compositeLayer : Nat → TilePatch
  brushingLayer : Nat → TilePatch
  indicator : Nat → Rat
  updatableTiles : List Nat

/-- Modelled from the spec: `Tiling.intersected` / `intersectedF`
(volumina.tiling, not under src).  The spec's full-invalidation protocol
("no region given ⇒ whole plane", "re-run the normal per-tile invalidation
path over the whole rectangle") makes an invalid rect denote every tile of
the plane; a valid rect yields the intersecting tile ids. -/
def Scene.intersected (s : Scene) : QRect → List Nat
  | .invalid => List.range s.numTiles
  | .valid r => s.geom r

/-- Replace the patch of layer `l` at tile `t`. -/
def setLayerPatch (s : Scene) (l t : Nat) (p : TilePatch) : Scene :=
  { s with imageLayers := fun l' t' => if l' = l ∧ t' = t then p else s.imageLayers l' t' }

/-- `DirtyIndicator.setTileProgress` (imageScene2D.py lines 82-84): stores
the given progress value for the tile (the triggered repaint of the
indicator item is not a scene mutation). -/
def setTileProgress (s : Scene) (tileId : Nat) (progress : Rat) : Scene :=
  { s with indicator := fun t' => if t' = tileId then progress else s.indicator t' }

/-- Embeds `ImageScene2D.drawLine` (imageScene2D.py lines 210-225): find
the brushing tile containing `toPoint`; if none, return; otherwise under
the patch lock paint the line translated by the tile's top-left corner,
bump `dataVer`, and schedule a redraw of the tile. -/
def Scene.drawLine (s : Scene) (fromP toP : Point) (pen : Nat) : Scene × List Event :=
  match s.containsQ toP with
  | none => (s, [])
  | some tileId =>
    let p := (s.brushingLayer tileId).lock
    let tL := s.topLeftQ tileId
    let p1 := { p with image := Img.line p.image (fromP.sub tL) (toP.sub tL) pen }
    let p2 := (bumpDataVer p1).unlock
    ({ s with brushingLayer := fun t => if t = tileId then p2 else s.brushingLayer t },
     [Event.redraw tileId])

/-- The body of the per-tile loop at the end of `_invalidateRect`
(imageScene2D.py lines 253-258): set the tile's progress indicator to
`1.0`, bump the composite patch's `dataVer` (no lock is taken in the
source here), and schedule a redraw of the tile. -/
def invStep (acc : Scene × List Event) (tileId : Nat) : Scene × List Event :=
  let sc1 := setTileProgress acc.1 tileId 1
  let sc2 := { sc1 with compositeLayer := fun t =>
    if t = tileId then bumpDataVer (sc1.compositeLayer t) else sc1.compositeLayer t }
  (sc2, acc.2 ++ [Event.redraw tileId])

/-- The state reached by the `not rect.isValid()` branch of
`_invalidateRect` (imageScene2D.py lines 235-251): clear
`_updatableTiles`, blank every brushing patch marking it current
(`imgVer = dataVer`) under its lock, and bump `dataVer` of every patch of
every image layer under its lock. -/
def fullResetScene (s : Scene) : Scene :=
  let sA := { s with updatableTiles := [] }
  let sB := { sA with brushingLayer := fun t =>
    if t < sA.numTiles then
      let p := (sA.brushingLayer t).lock
      ({ p with image := Img.blank, imgVer := p.dataVer }).unlock
    else sA.brushingLayer t }
  { sB with imageLayers := fun l t =>
    if l < sB.numLayers ∧ t < sB.numTiles then
      (bumpDataVer ((sB.imageLayers l t).lock)).unlock
    else sB.imageLayers l t }

/-- Embeds `ImageScene2D._invalidateRect` (imageScene2D.py lines 234-258).
If the rect is invalid: cancel all requests and run the full reset; then,
for every intersected tile, run the per-tile invalidation step. -/
def Scene.invalidateRect (s : Scene) (rect : QRect) : Scene × List Event :=
  let (s1, evs1) :=
    if rect.isValid then (s, ([] : List Event))
    else (fullResetScene s, [Event.cancelAll])
  (s1.intersected rect).foldl invStep (s1, evs1)

/-- The body of the per-tile loop of `_onLayerDirty`
(imageScene2D.py lines 228-230): bump `dataVer` of the layer's patch at the
tile (no lock is taken in the source here). -/
def dirtyStep (layerNr : Nat) (acc : Scene) (t : Nat) : Scene :=
  setLayerPatch acc layerNr t (bumpDataVer (acc.imageLayers layerNr t))

/-- Embeds `ImageScene2D._onLayerDirty` (imageScene2D.py lines 227-232):
bump `dataVer` of the layer's patch for every intersected tile, then run
`_invalidateRect` on the same rect. -/
def Scene.onLayerDirty (s : Scene) (layerNr : Nat) (rect : QRect) : Scene × List Event :=
  let s1 := (s.intersected rect).foldl (dirtyStep layerNr) s
  s1.invalidateRect rect

/-- The error outcome of a paint pass: the Python exception's name together
with the scene state and events accumulated up to the raise. -/
structure BgErr where
  errName : String
  scene : Scene
  events : List Event

/-- One iteration of the request loop of `drawBackground`
(imageScene2D.py lines 298-312) for layer `l` at tile `t`: lock the patch;
if it is stale and not requested at the current data version then — when
`volumina.verboseRequests` is set — the debug print dereferences the
undefined name `Np` (line 307) and raises `NameError` with the lock still
held; otherwise the request is issued, `reqVer` is set to `dataVer`, and
the patch is unlocked. -/
def requestStep (verbose : Bool) (s : Scene) (evs : List Event) (l t : Nat) :
    Except BgErr (Scene × List Event) :=
  let p := (s.imageLayers l t).lock
  let sL := setLayerPatch s l t p
  if p.imgVer ≠ p.dataVer ∧ p.reqVer ≠ p.dataVer then
    if verbose then
      Except.error ⟨"NameError", sL, evs⟩
    else
      let evs1 := evs ++ [Event.request l t]
      let p1 := ({ p with reqVer := p.dataVer }).unlock
      Except.ok (setLayerPatch sL l t p1, evs1)
  else
    Except.ok (setLayerPatch sL l t p.unlock, evs)

/-- The inner loop of `drawBackground`'s request pass: `for layerNr,
tiledLayer in enumerate(self._imageLayers)` at one tile. -/
def requestLayers (verbose : Bool) (t : Nat) :
    List Nat → Scene × List Event → Except BgErr (Scene × List Event)
  | [], st => Except.ok st
  | l :: ls, st =>
    match requestStep verbose st.1 st.2 l t with
    | Except.error e => Except.error e
    | Except.ok st1 => requestLayers verbose t ls st1

/-- The outer loop of `drawBackground`'s request pass: `for tileId in
patches`. -/
def requestTiles (verbose : Bool) :
    List Nat → Scene × List Event → Except BgErr (Scene × List Event)
  | [], st => Except.ok st
  | t :: ts, st =>
    match requestLayers verbose t (List.range st.1.numLayers) st with
    | Except.error e => Except.error e
    | Except.ok st1 => requestTiles verbose ts st1

/-- The per-tile dirty-layer count of `drawBackground`'s progress loop
(imageScene2D.py lines 321-328): the number of image layers whose patch at
the tile has `imgVer != dataVer` (the per-layer lock/unlock pair around the
comparison leaves the state unchanged). -/
def numDirtyLayers (s : Scene) (t : Nat) : Nat :=
  ((List.range s.numLayers).filter
    (fun l => (s.imageLayers l t).imgVer ≠ (s.imageLayers l t).dataVer)).length

/-- The progress loop of `drawBackground` (imageScene2D.py lines 321-330):
for each tile, `progress = 1.0 - numDirtyLayers/float(self._numLayers)` —
which raises `ZeroDivisionError` when the scene has zero layers — fed to
`setTileProgress`. -/
def progressTiles : List Nat → Scene × List Event → Except BgErr (Scene × List Event)
  | [], st => Except.ok st
  | t :: ts, st =>
    if st.1.numLayers = 0 then
      Except.error ⟨"ZeroDivisionError", st.1, st.2⟩
    else
      let prog : Rat := 1 - (numDirtyLayers st.1 t : Rat) / (st.1.numLayers : Rat)
      progressTiles ts (setTileProgress st.1 t prog, st.2)

/-- Embeds `ImageScene2D.drawBackground` (imageScene2D.py lines 291-330):
the request pass over all intersected tiles and all layers, then the
composite paint (which only reads patch buffers under their locks and is
state-neutral), then the progress pass. -/
def Scene.drawBackground (verbose : Bool) (s : Scene) (rect : QRect) :
    Except BgErr (Scene × List Event) :=
  let patches := s.intersected rect
  match requestTiles verbose patches (s, []) with
  | Except.error e => Except.error e
  | Except.ok st1 => progressTiles patches st1

/-- The scene state an operation ends in, whether it completed or raised. -/
def bgScene : Except BgErr (Scene × List Event) → Scene
  | Except.error e => e.scene
  | Except.ok st => st.1

/-- The events an operation emitted, whether it completed or raised. -/
def bgEvents : Except BgErr (Scene × List Event) → List Event
  | Except.error e => e.events
  | Except.ok st => st.2

/-- Build a scene whose layers all hold copies of one patch (the tiling
geometry maps are immaterial for whole-plane operations). -/
def mkScene (nT nL : Nat) (p : TilePatch) : Scene :=
  { numTiles := nT, numLayers := nL, geom := fun _ => [],
    containsQ := fun _ => none, topLeftQ := fun _ => ⟨0, 0⟩,
    imageLayers := fun _ _ => p, compositeLayer := fun _ => p,
    brushingLayer := fun _ => p, indicator := fun _ => 0, updatableTiles := [] }

/-- Example input: two tiles, one layer, all patches freshly valid. -/
def exSceneFresh : Scene := mkScene 2 1 (TilePatch.fresh 0)

/-- Example input: one tile, one layer, the layer patch stale
(`dataVer = 1`) and not yet requested. -/
def exSceneStale : Scene := mkScene 1 1 ⟨1, 0, 0, Img.blank, false⟩

/-- Example input: one tile and zero image layers. -/
def exSceneNoLayers : Scene := mkScene 1 0 (TilePatch.fresh 0)

/-- The spec's per-patch invariant: a patch is never ahead of its own most
recent invalidation. -/
def PatchInv (p : TilePatch) : Prop :=
  p.reqVer ≤ p.dataVer ∧ p.imgVer ≤ p.dataVer

/-- The per-patch invariant over every patch of every store of a scene. -/
def SceneInv (s : Scene) : Prop :=
  (∀ l t, PatchInv (s.imageLayers l t)) ∧
  (∀ t, PatchInv (s.compositeLayer t)) ∧
  (∀ t, PatchInv (s.brushingLayer t))

/-- The net effect of one request-pass iteration of `drawBackground`
(verbose flag off) on its own patch: if stale and unrequested, `reqVer` is
set to `dataVer`; the lock is released either way. -/
def requestedPatch (p : TilePatch) : TilePatch :=
  if p.imgVer ≠ p.dataVer ∧ p.reqVer ≠ p.dataVer then
    { p with reqVer := p.dataVer, locked := false }
  else { p with locked := false }

/-- The scene after the request pass has visited the layers `L` at tile
`t`. -/
def applyColumn (s : Scene) (t : Nat) (L : List Nat) : Scene :=
  { s with imageLayers := fun l' t' =>
      if l' ∈ L ∧ t' = t then requestedPatch (s.imageLayers l' t')
      else s.imageLayers l' t' }

/-- The requests the request pass emits while visiting the layers `L` at
tile `t`. -/
def colEvents (s : Scene) (t : Nat) (L : List Nat) : List Event :=
  L.filterMap (fun l =>
    if needsRequest (s.imageLayers l t) then some (Event.request l t) else none)

/-- The scene after the request pass has visited every layer of every tile
in `T`. -/
def applyTiles (s : Scene) (T : List Nat) : Scene :=
  { s with imageLayers := fun l t =>
      if t ∈ T ∧ l < s.numLayers then requestedPatch (s.imageLayers l t)
      else s.imageLayers l t }

/-- The requests the request pass emits over the tiles `T`, in emission
order. -/
def tilesEvents (s : Scene) (T : List Nat) : List Event :=
  (T.map (fun t => colEvents s t (List.range s.numLayers))).flatten

end Volumina

/-! ## Claim theorems -/

namespace Lazyflow

/-- C1: the claim states that the default `usedMemory` returns the bytes
used by the cache itself plus the sum of `usedMemory()` over observable
children.  The source (opCache.py line 95) returns the literal `0`,
discarding the accumulated total: with a single observable child reporting
5 bytes, the default returns 0 while the documented/specified value is 5. -/
theorem C1_defaultUsedMemory_discards_total :
    defaultUsedMemory [exObsChild] = 0 ∧
    observableChildrenSum [exObsChild] = 5 ∧
    specifiedUsedMemory 0 [exObsChild] = 5 ∧
    defaultUsedMemory [exObsChild] ≠ specifiedUsedMemory 0 [exObsChild] := by
  refine ⟨rfl, rfl, rfl, ?_⟩
  decide

/-- C7: the default `freeMemory` of a managed cache raises a distinct
"not implemented" failure (a `NotImplementedError` surfaced to the caller)
and never returns a byte count, in particular not 0. -/
theorem C7_freeMemory_default_raises :
    defaultFreeMemory = Except.error "No default implementation for freeMemory()" ∧
    ∀ n : Nat, defaultFreeMemory ≠ Except.ok n :=
  ⟨rfl, fun _ h => Except.noConfusion h⟩

/-- C8: the construction trace of a cache contains exactly one
registration with the process-wide registry, occurring after full
construction, and the registration takes the first-class path exactly when
the cache has no parent or its parent is not itself a cache. -/
theorem C8_registration_once_and_path (parent : Option CObj) :
    (cacheInitTrace parent).countP isRegistration = 1 ∧
    cacheInitTrace parent =
      [InitEvent.constructed, InitEvent.registered (registrationPath parent)] ∧
    (registrationPath parent = RegPath.firstClass ↔
      (parent = none ∨ ∃ p, parent = some p ∧ isCache p = false)) := by
  refine ⟨?_, rfl, ?_⟩
  · simp [cacheInitTrace, List.countP, List.countP.go, isRegistration]
  · cases parent with
    | none => simp [registrationPath]
    | some p =>
      by_cases h : isCache p
      · simp [registrationPath, h]
      · simp [registrationPath, h]

end Lazyflow

namespace Volumina

lemma invStep_fields (acc : Scene × List Event) (tileId : Nat) :
    (invStep acc tileId).1.numTiles = acc.1.numTiles ∧
    (invStep acc tileId).1.numLayers = acc.1.numLayers ∧
    (invStep acc tileId).1.geom = acc.1.geom ∧
    (invStep acc tileId).1.imageLayers = acc.1.imageLayers ∧
    (invStep acc tileId).1.brushingLayer = acc.1.brushingLayer ∧
    (invStep acc tileId).1.updatableTiles = acc.1.updatableTiles ∧
    (invStep acc tileId).2 = acc.2 ++ [Event.redraw tileId] := by
  unfold invStep setTileProgress
  exact ⟨rfl, rfl, rfl, rfl, rfl, rfl, rfl⟩

lemma invFold_fields (L : List Nat) (acc : Scene × List Event) :
    (L.foldl invStep acc).1.numTiles = acc.1.numTiles ∧
    (L.foldl invStep acc).1.numLayers = acc.1.numLayers ∧
    (L.foldl invStep acc).1.geom = acc.1.geom ∧
    (L.foldl invStep acc).1.imageLayers = acc.1.imageLayers ∧
    (L.foldl invStep acc).1.brushingLayer = acc.1.brushingLayer ∧
    (L.foldl invStep acc).1.updatableTiles = acc.1.updatableTiles ∧
    (L.foldl invStep acc).2 = acc.2 ++ L.map Event.redraw := by
  induction L generalizing acc with
  | nil => simp
  | cons a as ih =>
    have hstep := invStep_fields acc a
    have h := ih (invStep acc a)
    simp only [List.foldl_cons, List.map_cons]
    refine ⟨h.1.trans hstep.1, h.2.1.trans hstep.2.1, h.2.2.1.trans hstep.2.2.1,
      h.2.2.2.1.trans hstep.2.2.2.1, h.2.2.2.2.1.trans hstep.2.2.2.2.1,
      h.2.2.2.2.2.1.trans hstep.2.2.2.2.2.1, ?_⟩
    rw [h.2.2.2.2.2.2, hstep.2.2.2.2.2.2, List.append_assoc]
    rfl

lemma invFold_indicator (L : List Nat) (acc : Scene × List Event) (t : Nat)
    (h : acc.1.indicator t = 1 ∨ t ∈ L) :
    (L.foldl invStep acc).1.indicator t = 1 := by
  induction L generalizing acc with
  | nil => simpa using h
  | cons a as ih =>
    simp only [List.foldl_cons]
    apply ih
    by_cases hta : t = a
    · left
      simp [invStep, setTileProgress, hta]
    · rcases h with h1 | h2
      · left
        simpa [invStep, setTileProgress, hta] using h1
      · right
        rcases List.mem_cons.mp h2 with h3 | h3
        · exact absurd h3 hta
        · exact h3

/-- C2 counterexample: the claim states that full-plane invalidation sets
every tile's progress indicator to 0 (fully incomplete); on a concrete
scene of two fresh tiles the source instead stores 1.0, the fully complete
value (`setTileProgress(tileId, 1.0)`, imageScene2D.py line 254). -/
theorem C2_counterexample_progress_is_one_not_zero :
    (exSceneFresh.invalidateRect QRect.invalid).1.indicator 0 ≠ 0 ∧
    (exSceneFresh.invalidateRect QRect.invalid).1.indicator 0 = 1 := by
  constructor <;> decide

/-- C2 (amended): when `_invalidateRect` is called with no valid region
(full-plane invalidation), the progress indicator of every tile of the
plane is set to 1.0, the fully complete value — under which the
`DirtyIndicator` paints no dirtiness pie — rather than to 0. -/
theorem C2_full_invalidation_sets_progress_one (s : Scene) (t : Nat)
    (ht : t < s.numTiles) :
    (s.invalidateRect QRect.invalid).1.indicator t = 1 := by
  unfold Scene.invalidateRect
  simp only [QRect.isValid, Bool.false_eq_true, if_false]
  apply invFold_indicator
  right
  simpa [Scene.intersected, fullResetScene] using ht

theorem C2_full_invalidation_sets_progress_one_witness :
    1 < exSceneFresh.numTiles ∧
    (exSceneFresh.invalidateRect QRect.invalid).1.indicator 1 = 1 :=
  ⟨by decide, C2_full_invalidation_sets_progress_one exSceneFresh 1 (by decide)⟩

/-- C4: full-plane invalidation invokes the scheduler's `cancelAll`
exactly once, clears every brushing patch's buffer to blank marking it
current (`imgVer = dataVer`), and increments `dataVer` on every patch of
every computed image layer. -/
theorem C4_full_invalidation_cancel_brush_bump (s : Scene) :
    (s.invalidateRect QRect.invalid).2.count Event.cancelAll = 1 ∧
    (∀ t, t < s.numTiles →
      ((s.invalidateRect QRect.invalid).1.brushingLayer t).image = Img.blank ∧
      ((s.invalidateRect QRect.invalid).1.brushingLayer t).imgVer =
        ((s.invalidateRect QRect.invalid).1.brushingLayer t).dataVer) ∧
    (∀ l t, l < s.numLayers → t < s.numTiles →
      ((s.invalidateRect QRect.invalid).1.imageLayers l t).dataVer =
        (s.imageLayers l t).dataVer + 1) := by
  have hfold := invFold_fields ((fullResetScene s).intersected QRect.invalid)
    (fullResetScene s, [Event.cancelAll])
  have hinv : s.invalidateRect QRect.invalid =
      ((fullResetScene s).intersected QRect.invalid).foldl invStep
        (fullResetScene s, [Event.cancelAll]) := by
    unfold Scene.invalidateRect
    simp [QRect.isValid]
  refine ⟨?_, ?_, ?_⟩
  · rw [hinv, hfold.2.2.2.2.2.2]
    have : (List.map Event.redraw
        ((fullResetScene s).intersected QRect.invalid)).count Event.cancelAll = 0 := by
      apply List.count_eq_zero.mpr
      intro hmem
      rcases List.mem_map.mp hmem with ⟨a, _, ha⟩
      exact Event.noConfusion ha
    simp [List.count_append, this]
  · intro t ht
    rw [hinv, hfold.2.2.2.2.1]
    simp only [fullResetScene]
    simp only [ht, if_pos]
    constructor <;> rfl
  · intro l t hl ht
    rw [hinv, hfold.2.2.2.1]
    simp only [fullResetScene]
    have : l < s.numLayers ∧ t < s.numTiles := ⟨hl, ht⟩
    simp only [this, if_pos]
    rfl

theorem C4_full_invalidation_cancel_brush_bump_witness :
    (exSceneFresh.invalidateRect QRect.invalid).2.count Event.cancelAll = 1 ∧
    (0 < exSceneFresh.numTiles ∧
      ((exSceneFresh.invalidateRect QRect.invalid).1.brushingLayer 0).image = Img.blank) ∧
    (0 < exSceneFresh.numLayers ∧
      ((exSceneFresh.invalidateRect QRect.invalid).1.imageLayers 0 0).dataVer =
        (exSceneFresh.imageLayers 0 0).dataVer + 1) :=
  ⟨(C4_full_invalidation_cancel_brush_bump exSceneFresh).1,
   ⟨by decide, ((C4_full_invalidation_cancel_brush_bump exSceneFresh).2.1 0 (by decide)).1⟩,
   ⟨by decide, (C4_full_invalidation_cancel_brush_bump exSceneFresh).2.2 0 0 (by decide) (by decide)⟩⟩

end Volumina

namespace Volumina

lemma patchInv_bump {p : TilePatch} (h : PatchInv p) : PatchInv (bumpDataVer p) :=
  ⟨Nat.le_succ_of_le h.1, Nat.le_succ_of_le h.2⟩

lemma sceneInv_setLayerPatch {s : Scene} {l t : Nat} {q : TilePatch}
    (h : SceneInv s) (hq : PatchInv q) : SceneInv (setLayerPatch s l t q) := by
  refine ⟨?_, h.2.1, h.2.2⟩
  intro l' t'
  unfold setLayerPatch
  by_cases hlt : l' = l ∧ t' = t
  · simpa [hlt] using hq
  · simpa [hlt] using h.1 l' t'

lemma invStep_sceneInv {acc : Scene × List Event} {tileId : Nat}
    (h : SceneInv acc.1) : SceneInv (invStep acc tileId).1 := by
  refine ⟨h.1, ?_, h.2.2⟩
  intro t
  by_cases htt : t = tileId
  · simpa [invStep, setTileProgress, htt] using patchInv_bump (h.2.1 t)
  · simpa [invStep, setTileProgress, htt] using h.2.1 t

lemma invFold_sceneInv (L : List Nat) (acc : Scene × List Event)
    (h : SceneInv acc.1) : SceneInv (L.foldl invStep acc).1 := by
  induction L generalizing acc with
  | nil => simpa using h
  | cons a as ih =>
    simp only [List.foldl_cons]
    exact ih (invStep acc a) (invStep_sceneInv h)

lemma fullResetScene_sceneInv {s : Scene} (h : SceneInv s) :
    SceneInv (fullResetScene s) := by
  unfold fullResetScene
  refine ⟨?_, h.2.1, ?_⟩
  · intro l t
    by_cases hlt : l < s.numLayers ∧ t < s.numTiles
    · simpa [hlt] using patchInv_bump (h.1 l t)
    · simpa [hlt] using h.1 l t
  · intro t
    by_cases ht : t < s.numTiles
    · simp only [ht, if_pos]
      exact ⟨(h.2.2 t).1, Nat.le_refl _⟩
    · simpa [ht] using h.2.2 t

lemma invalidateRect_sceneInv (s : Scene) (rect : QRect) (h : SceneInv s) :
    SceneInv (s.invalidateRect rect).1 := by
  unfold Scene.invalidateRect
  by_cases hv : rect.isValid
  · simp only [hv, if_true]
    exact invFold_sceneInv _ _ h
  · simp only [hv, if_false]
    simp only [Bool.false_eq_true, if_false]
    exact invFold_sceneInv _ _ (fullResetScene_sceneInv h)

lemma drawLine_sceneInv (s : Scene) (fromP toP : Point) (pen : Nat)
    (h : SceneInv s) : SceneInv (s.drawLine fromP toP pen).1 := by
  unfold Scene.drawLine
  cases hc : s.containsQ toP with
  | none => simpa using h
  | some tid =>
    refine ⟨h.1, h.2.1, ?_⟩
    intro t
    by_cases htt : t = tid
    · simp only [htt, if_pos]
      exact ⟨Nat.le_succ_of_le (h.2.2 tid).1, Nat.le_succ_of_le (h.2.2 tid).2⟩
    · simpa [htt] using h.2.2 t

lemma dirtyFold_sceneInv (L : List Nat) (layerNr : Nat) (s : Scene)
    (h : SceneInv s) : SceneInv (L.foldl (dirtyStep layerNr) s) := by
  induction L generalizing s with
  | nil => simpa using h
  | cons a as ih =>
    simp only [List.foldl_cons]
    apply ih
    exact sceneInv_setLayerPatch h (patchInv_bump (h.1 layerNr a))

lemma onLayerDirty_sceneInv (s : Scene) (layerNr : Nat) (rect : QRect)
    (h : SceneInv s) : SceneInv (s.onLayerDirty layerNr rect).1 := by
  unfold Scene.onLayerDirty
  exact invalidateRect_sceneInv _ _ (dirtyFold_sceneInv _ _ _ h)

lemma requestStep_bgInv (v : Bool) (s : Scene) (evs : List Event) (l t : Nat)
    (h : SceneInv s) : SceneInv (bgScene (requestStep v s evs l t)) := by
  have h1 : PatchInv ((s.imageLayers l t).lock) := h.1 l t
  have hs1 : SceneInv (setLayerPatch s l t ((s.imageLayers l t).lock)) :=
    sceneInv_setLayerPatch h h1
  simp only [requestStep]
  split
  · split
    · exact hs1
    · exact sceneInv_setLayerPatch hs1 ⟨Nat.le_refl _, h1.2⟩
  · exact sceneInv_setLayerPatch hs1 h1

lemma requestLayers_bgInv (v : Bool) (t : Nat) (L : List Nat)
    (st : Scene × List Event) (h : SceneInv st.1) :
    SceneInv (bgScene (requestLayers v t L st)) := by
  induction L generalizing st with
  | nil => simpa [requestLayers, bgScene] using h
  | cons l ls ih =>
    simp only [requestLayers]
    cases hstep : requestStep v st.1 st.2 l t with
    | error e =>
      have hi := requestStep_bgInv v st.1 st.2 l t h
      rw [hstep] at hi
      simpa [bgScene] using hi
    | ok st1 =>
      have hi := requestStep_bgInv v st.1 st.2 l t h
      rw [hstep] at hi
      exact ih st1 (by simpa [bgScene] using hi)

lemma requestTiles_bgInv (v : Bool) (T : List Nat)
    (st : Scene × List Event) (h : SceneInv st.1) :
    SceneInv (bgScene (requestTiles v T st)) := by
  induction T generalizing st with
  | nil => simpa [requestTiles, bgScene] using h
  | cons t ts ih =>
    simp only [requestTiles]
    cases hstep : requestLayers v t (List.range st.1.numLayers) st with
    | error e =>
      have hi := requestLayers_bgInv v t (List.range st.1.numLayers) st h
      rw [hstep] at hi
      simpa [bgScene] using hi
    | ok st1 =>
      have hi := requestLayers_bgInv v t (List.range st.1.numLayers) st h
      rw [hstep] at hi
      exact ih st1 (by simpa [bgScene] using hi)

lemma progressTiles_bgInv (L : List Nat) (st : Scene × List Event)
    (h : SceneInv st.1) : SceneInv (bgScene (progressTiles L st)) := by
  induction L generalizing st with
  | nil => simpa [progressTiles, bgScene] using h
  | cons t ts ih =>
    simp only [progressTiles]
    by_cases h0 : st.1.numLayers = 0
    · simpa [h0, bgScene] using h
    · simp only [h0, if_false]
      exact ih _ h

lemma drawBackground_bgInv (v : Bool) (s : Scene) (rect : QRect)
    (h : SceneInv s) : SceneInv (bgScene (Scene.drawBackground v s rect)) := by
  have hi := requestTiles_bgInv v (s.intersected rect) (s, []) h
  simp only [Scene.drawBackground]
  cases hreq : requestTiles v (s.intersected rect) (s, []) with
  | error e =>
    rw [hreq] at hi
    simp only [hreq]
    simpa [bgScene] using hi
  | ok st1 =>
    rw [hreq] at hi
    simp only [hreq]
    exact progressTiles_bgInv _ st1 (by simpa [bgScene] using hi)

/-- C5: from the initial state with the three version counters equal, the
invariant `reqVer ≤ dataVer` and `imgVer ≤ dataVer` holds and is preserved
by each compositor operation (`drawLine`, `_onLayerDirty`,
`_invalidateRect`, `drawBackground`, even when the latter raises); a patch
is stale exactly when `imgVer ≠ dataVer` and a request is pending exactly
when `reqVer = dataVer` and `imgVer ≠ dataVer`. -/
theorem C5_version_invariant_preserved :
    (∀ v, PatchInv (TilePatch.fresh v)) ∧
    (∀ p : TilePatch, p.stale ↔ p.imgVer ≠ p.dataVer) ∧
    (∀ p : TilePatch, p.pending ↔ (p.reqVer = p.dataVer ∧ p.imgVer ≠ p.dataVer)) ∧
    (∀ s fromP toP pen, SceneInv s → SceneInv (Scene.drawLine s fromP toP pen).1) ∧
    (∀ s layerNr rect, SceneInv s → SceneInv (Scene.onLayerDirty s layerNr rect).1) ∧
    (∀ s rect, SceneInv s → SceneInv (Scene.invalidateRect s rect).1) ∧
    (∀ v s rect, SceneInv s → SceneInv (bgScene (Scene.drawBackground v s rect))) :=
  ⟨fun _ => ⟨Nat.le_refl _, Nat.le_refl _⟩,
   fun _ => Iff.rfl,
   fun _ => Iff.rfl,
   fun s fromP toP pen h => drawLine_sceneInv s fromP toP pen h,
   fun s layerNr rect h => onLayerDirty_sceneInv s layerNr rect h,
   fun s rect h => invalidateRect_sceneInv s rect h,
   fun v s rect h => drawBackground_bgInv v s rect h⟩

theorem C5_version_invariant_preserved_witness :
    SceneInv exSceneFresh ∧
    SceneInv (Scene.invalidateRect exSceneFresh QRect.invalid).1 ∧
    SceneInv (bgScene (Scene.drawBackground false exSceneFresh QRect.invalid)) := by
  have hinv : SceneInv exSceneFresh :=
    ⟨fun _ _ => ⟨Nat.le_refl _, Nat.le_refl _⟩,
     fun _ => ⟨Nat.le_refl _, Nat.le_refl _⟩,
     fun _ => ⟨Nat.le_refl _, Nat.le_refl _⟩⟩
  exact ⟨hinv,
    C5_version_invariant_preserved.2.2.2.2.2.1 exSceneFresh QRect.invalid hinv,
    C5_version_invariant_preserved.2.2.2.2.2.2 false exSceneFresh QRect.invalid hinv⟩

end Volumina

namespace Lazyflow

lemma genChildren_eq (cs : List CObj) :
    genChildren cs = (cs.filter isCache).map (fun ch => genReport ch MemInfoNode.empty) := by
  induction cs with
  | nil => simp [genChildren]
  | cons c cs ih =>
    by_cases hc : isCache c
    · simp [genChildren, List.filter_cons, hc, ih]
    · simp [genChildren, List.filter_cons, hc, ih]

/-- C6: for every cache, `generateReport` fills the node's type, identity
and name, and appends exactly one child report per child that is itself a
cache, in child-iteration order; the dispatched method agrees with the
per-class super-first layering (`OpManagedCache` extends
`OpObservableCache` extends `OpCache`), so a managed cache's report always
carries the observable-level fields (`usedMemory`,
`fractionOfUsedMemoryDirty`) and the managed-level field
(`lastAccessTime`). -/
theorem C6_generateReport_fields_children_layering (c : CObj) (node : MemInfoNode)
    (hc : isCache c = true) :
    (genReport c node).type = some c.kind ∧
    (genReport c node).ident = some c.ident ∧
    (genReport c node).name = some c.name ∧
    (genReport c node).children =
      (c.children.filter isCache).map (fun ch => genReport ch MemInfoNode.empty) ∧
    (c.kind = CKind.cache → genReport c node = opCacheGenerateReport c node) ∧
    (c.kind = CKind.observable → genReport c node = opObservableGenerateReport c node) ∧
    (c.kind = CKind.managed → genReport c node = opManagedGenerateReport c node) ∧
    (c.kind = CKind.managed →
      (genReport c node).usedMemory = some c.used ∧
      (genReport c node).fractionOfUsedMemoryDirty = some c.frac ∧
      (genReport c node).lastAccessTime = some c.lastAccess) := by
  cases c with
  | node k nm i u f la cs =>
    cases node with
    | mk t0 i0 u0 d0 r0 f0 la0 n0 inf0 ch0 =>
      cases k with
      | plainOp => exact absurd hc (by simp [isCache, CObj.kind])
      | cache =>
        refine ⟨?_, ?_, ?_, ?_, ?_, ?_, ?_, ?_⟩ <;>
          simp [genReport, opCacheGenerateReport, opObservableGenerateReport,
            opManagedGenerateReport, MemInfoNode.type, MemInfoNode.ident,
            MemInfoNode.name, MemInfoNode.children, MemInfoNode.usedMemory,
            MemInfoNode.fractionOfUsedMemoryDirty, MemInfoNode.lastAccessTime,
            CObj.kind, CObj.ident, CObj.name, CObj.children, CObj.used,
            CObj.frac, CObj.lastAccess, genChildren_eq]
      | observable =>
        refine ⟨?_, ?_, ?_, ?_, ?_, ?_, ?_, ?_⟩ <;>
          simp [genReport, opCacheGenerateReport, opObservableGenerateReport,
            opManagedGenerateReport, MemInfoNode.type, MemInfoNode.ident,
            MemInfoNode.name, MemInfoNode.children, MemInfoNode.usedMemory,
            MemInfoNode.fractionOfUsedMemoryDirty, MemInfoNode.lastAccessTime,
            CObj.kind, CObj.ident, CObj.name, CObj.children, CObj.used,
            CObj.frac, CObj.lastAccess, genChildren_eq]
      | managed =>
        refine ⟨?_, ?_, ?_, ?_, ?_, ?_, ?_, ?_⟩ <;>
          simp [genReport, opCacheGenerateReport, opObservableGenerateReport,
            opManagedGenerateReport, MemInfoNode.type, MemInfoNode.ident,
            MemInfoNode.name, MemInfoNode.children, MemInfoNode.usedMemory,
            MemInfoNode.fractionOfUsedMemoryDirty, MemInfoNode.lastAccessTime,
            CObj.kind, CObj.ident, CObj.name, CObj.children, CObj.used,
            CObj.frac, CObj.lastAccess, genChildren_eq]

theorem C6_generateReport_fields_children_layering_witness :
    isCache exManaged = true ∧
    (genReport exManaged MemInfoNode.empty).type = some exManaged.kind ∧
    (genReport exManaged MemInfoNode.empty).children =
      (exManaged.children.filter isCache).map (fun ch => genReport ch MemInfoNode.empty) ∧
    (genReport exManaged MemInfoNode.empty).lastAccessTime = some exManaged.lastAccess := by
  have h := C6_generateReport_fields_children_layering exManaged MemInfoNode.empty rfl
  exact ⟨rfl, h.1, h.2.2.2.1, (h.2.2.2.2.2.2.2 rfl).2.2⟩

end Lazyflow

namespace Volumina

@[simp] lemma lock_dataVer (p : TilePatch) : p.lock.dataVer = p.dataVer := rfl

@[simp] lemma lock_imgVer (p : TilePatch) : p.lock.imgVer = p.imgVer := rfl

@[simp] lemma lock_reqVer (p : TilePatch) : p.lock.reqVer = p.reqVer := rfl

@[simp] lemma unlock_dataVer (p : TilePatch) : p.unlock.dataVer = p.dataVer := rfl

@[simp] lemma unlock_imgVer (p : TilePatch) : p.unlock.imgVer = p.imgVer := rfl

@[simp] lemma unlock_reqVer (p : TilePatch) : p.unlock.reqVer = p.reqVer := rfl

lemma requestStep_true_error (s : Scene) (evs : List Event) (l t : Nat)
    (hc : (s.imageLayers l t).imgVer ≠ (s.imageLayers l t).dataVer ∧
          (s.imageLayers l t).reqVer ≠ (s.imageLayers l t).dataVer) :
    requestStep true s evs l t =
      Except.error ⟨"NameError", setLayerPatch s l t ((s.imageLayers l t).lock), evs⟩ := by
  simp only [requestStep, lock_dataVer, lock_imgVer, lock_reqVer]
  rw [if_pos hc]
  simp

/-- C9: with the verbose-requests flag enabled, if the first intersected
tile's layer-0 patch is stale and unrequested, `drawBackground` raises a
`NameError` from the undefined name `Np` (imageScene2D.py line 307) before
any request is issued, leaving that patch's lock held and its `reqVer`
unchanged. -/
theorem C9_verbose_nameerror_aborts (s : Scene) (rect : QRect) (t0 : Nat)
    (rest : List Nat)
    (hp : s.intersected rect = t0 :: rest)
    (hl : 0 < s.numLayers)
    (hc : (s.imageLayers 0 t0).imgVer ≠ (s.imageLayers 0 t0).dataVer ∧
          (s.imageLayers 0 t0).reqVer ≠ (s.imageLayers 0 t0).dataVer) :
    Scene.drawBackground true s rect =
      Except.error ⟨"NameError", setLayerPatch s 0 t0 ((s.imageLayers 0 t0).lock), []⟩ ∧
    ((bgScene (Scene.drawBackground true s rect)).imageLayers 0 t0).locked = true ∧
    ((bgScene (Scene.drawBackground true s rect)).imageLayers 0 t0).reqVer =
      (s.imageLayers 0 t0).reqVer ∧
    bgEvents (Scene.drawBackground true s rect) = [] := by
  cases hn : s.numLayers with
  | zero => omega
  | succ k =>
    have hmain : Scene.drawBackground true s rect =
        Except.error ⟨"NameError", setLayerPatch s 0 t0 ((s.imageLayers 0 t0).lock), []⟩ := by
      simp only [Scene.drawBackground, hp, requestTiles]
      rw [hn, List.range_succ_eq_map]
      simp only [requestLayers]
      rw [requestStep_true_error s [] 0 t0 hc]
    refine ⟨hmain, ?_, ?_, ?_⟩
    · rw [hmain]
      simp [bgScene, setLayerPatch, TilePatch.lock]
    · rw [hmain]
      simp [bgScene, setLayerPatch, TilePatch.lock]
    · rw [hmain]
      simp [bgEvents]

theorem C9_verbose_nameerror_aborts_witness :
    exSceneStale.intersected QRect.invalid = 0 :: [] ∧
    0 < exSceneStale.numLayers ∧
    Scene.drawBackground true exSceneStale QRect.invalid =
      Except.error ⟨"NameError",
        setLayerPatch exSceneStale 0 0 ((exSceneStale.imageLayers 0 0).lock), []⟩ ∧
    ((bgScene (Scene.drawBackground true exSceneStale QRect.invalid)).imageLayers 0 0).locked
      = true ∧
    bgEvents (Scene.drawBackground true exSceneStale QRect.invalid) = [] := by
  have h := C9_verbose_nameerror_aborts exSceneStale QRect.invalid 0 []
    (by decide) (by decide) (by decide)
  exact ⟨by decide, by decide, h.1, h.2.1, h.2.2.2⟩

lemma requestTiles_zeroLayers (v : Bool) (T : List Nat) (s : Scene)
    (evs : List Event) (h0 : s.numLayers = 0) :
    requestTiles v T (s, evs) = Except.ok (s, evs) := by
  induction T with
  | nil => rfl
  | cons t ts ih =>
    simp only [requestTiles, h0, List.range_zero, requestLayers]
    exact ih

lemma requestStep_false_isOk (s : Scene) (evs : List Event) (l t : Nat) :
    ∃ s1 evs1, requestStep false s evs l t = Except.ok (s1, evs1) ∧
      s1.numLayers = s.numLayers := by
  simp only [requestStep, lock_dataVer, lock_imgVer, lock_reqVer]
  by_cases hc : (s.imageLayers l t).imgVer ≠ (s.imageLayers l t).dataVer ∧
      (s.imageLayers l t).reqVer ≠ (s.imageLayers l t).dataVer
  · rw [if_pos hc, if_neg (by simp)]
    exact ⟨_, _, rfl, rfl⟩
  · rw [if_neg hc]
    exact ⟨_, _, rfl, rfl⟩

lemma requestLayers_false_isOk (t : Nat) (L : List Nat) (st : Scene × List Event) :
    ∃ st1, requestLayers false t L st = Except.ok st1 ∧
      st1.1.numLayers = st.1.numLayers := by
  induction L generalizing st with
  | nil => exact ⟨st, rfl, rfl⟩
  | cons l ls ih =>
    obtain ⟨s1, evs1, hok, hnl⟩ := requestStep_false_isOk st.1 st.2 l t
    simp only [requestLayers, hok]
    obtain ⟨st2, hok2, hnl2⟩ := ih (s1, evs1)
    exact ⟨st2, hok2, hnl2.trans hnl⟩

lemma requestTiles_false_isOk (T : List Nat) (st : Scene × List Event) :
    ∃ st1, requestTiles false T st = Except.ok st1 ∧
      st1.1.numLayers = st.1.numLayers := by
  induction T generalizing st with
  | nil => exact ⟨st, rfl, rfl⟩
  | cons t ts ih =>
    obtain ⟨st1, hok, hnl⟩ := requestLayers_false_isOk t (List.range st.1.numLayers) st
    simp only [requestTiles, hok]
    obtain ⟨st2, hok2, hnl2⟩ := ih st1
    exact ⟨st2, hok2, hnl2.trans hnl⟩

lemma progressTiles_isOk (L : List Nat) (st : Scene × List Event)
    (h : st.1.numLayers ≠ 0) :
    ∃ st1, progressTiles L st = Except.ok st1 := by
  induction L generalizing st with
  | nil => exact ⟨st, rfl⟩
  | cons t ts ih =>
    simp only [progressTiles, h, if_false]
    exact ih _ h

/-- C10: if the scene has zero image layers and the painted region
intersects at least one tile, `drawBackground` raises `ZeroDivisionError`
in the per-tile progress computation
(`numDirtyLayers/float(self._numLayers)`, imageScene2D.py line 329);
with at least one layer (and the verbose flag off) the pass completes, so
a positive layer count is an unstated precondition. -/
theorem C10_drawBackground_zero_layers (s : Scene) (rect : QRect) (verbose : Bool)
    (t0 : Nat) (rest : List Nat) (hp : s.intersected rect = t0 :: rest) :
    (s.numLayers = 0 →
      Scene.drawBackground verbose s rect =
        Except.error ⟨"ZeroDivisionError", s, []⟩) ∧
    (0 < s.numLayers → ∃ st, Scene.drawBackground false s rect = Except.ok st) := by
  constructor
  · intro h0
    simp only [Scene.drawBackground, hp]
    rw [requestTiles_zeroLayers verbose (t0 :: rest) s [] h0]
    simp only [progressTiles, h0, if_pos]
  · intro hpos
    obtain ⟨st1, hok, hnl⟩ := requestTiles_false_isOk (s.intersected rect) (s, [])
    simp only [Scene.drawBackground, hok]
    have hnl1 : st1.1.numLayers = s.numLayers := hnl
    exact progressTiles_isOk _ st1 (by omega)

theorem C10_drawBackground_zero_layers_witness :
    exSceneNoLayers.intersected QRect.invalid = 0 :: [] ∧
    exSceneNoLayers.numLayers = 0 ∧
    Scene.drawBackground false exSceneNoLayers QRect.invalid =
      Except.error ⟨"ZeroDivisionError", exSceneNoLayers, []⟩ := by
  have h := C10_drawBackground_zero_layers exSceneNoLayers QRect.invalid false 0 []
    (by decide)
  exact ⟨by decide, rfl, h.1 rfl⟩

end Volumina

namespace Volumina

lemma setLayerPatch_twice (s : Scene) (l t : Nat) (p q : TilePatch) :
    setLayerPatch (setLayerPatch s l t p) l t q = setLayerPatch s l t q := by
  unfold setLayerPatch
  refine Scene.ext rfl rfl rfl rfl rfl ?_ rfl rfl rfl rfl
  funext l' t'
  by_cases h : l' = l ∧ t' = t
  · simp [h]
  · simp [h]

lemma requestStep_false_eq (s : Scene) (evs : List Event) (l t : Nat) :
    requestStep false s evs l t =
      Except.ok (setLayerPatch s l t (requestedPatch (s.imageLayers l t)),
        evs ++ if needsRequest (s.imageLayers l t) then [Event.request l t] else []) := by
  simp only [requestStep, lock_dataVer, lock_imgVer, lock_reqVer]
  by_cases hc : needsRequest (s.imageLayers l t)
  · rw [if_pos hc, if_neg (by simp), setLayerPatch_twice, if_pos hc]
    unfold requestedPatch
    rw [if_pos hc]
    exact rfl
  · rw [if_neg hc, setLayerPatch_twice, if_neg hc]
    unfold requestedPatch
    rw [if_neg hc]
    simp only [List.append_nil]
    exact rfl

lemma colEvents_cons (s : Scene) (t l0 : Nat) (ls : List Nat) :
    colEvents s t (l0 :: ls) =
      (if needsRequest (s.imageLayers l0 t) then [Event.request l0 t] else []) ++
        colEvents s t ls := by
  unfold colEvents
  rw [List.filterMap_cons]
  by_cases h : needsRequest (s.imageLayers l0 t)
  · rw [if_pos h, if_pos h]
    rfl
  · rw [if_neg h, if_neg h]
    rfl

lemma colEvents_setLayerPatch (s : Scene) (t l0 : Nat) (q : TilePatch)
    (ls : List Nat) (hn : l0 ∉ ls) :
    colEvents (setLayerPatch s l0 t q) t ls = colEvents s t ls := by
  induction ls with
  | nil => rfl
  | cons a as ih =>
    have hsplit : l0 ≠ a ∧ l0 ∉ as := by
      simpa [List.mem_cons, not_or] using hn
    have ha : a ≠ l0 := hsplit.1.symm
    rw [colEvents_cons, colEvents_cons, ih hsplit.2]
    have heq : (setLayerPatch s l0 t q).imageLayers a t = s.imageLayers a t := by
      simp [setLayerPatch, ha]
    rw [heq]

lemma applyColumn_nil (s : Scene) (t : Nat) : applyColumn s t [] = s := by
  unfold applyColumn
  refine Scene.ext rfl rfl rfl rfl rfl ?_ rfl rfl rfl rfl
  funext l' t'
  simp

lemma applyColumn_setLayerPatch (s : Scene) (t l0 : Nat) (ls : List Nat)
    (hn : l0 ∉ ls) :
    applyColumn (setLayerPatch s l0 t (requestedPatch (s.imageLayers l0 t))) t ls =
      applyColumn s t (l0 :: ls) := by
  unfold applyColumn setLayerPatch
  refine Scene.ext rfl rfl rfl rfl rfl ?_ rfl rfl rfl rfl
  funext l' t'
  by_cases ht' : t' = t
  · subst ht'
    by_cases hl' : l' = l0
    · subst hl'
      simp [hn]
    · by_cases hmem : l' ∈ ls
      · simp [List.mem_cons, hl', hmem]
      · simp [List.mem_cons, hl', hmem]
  · simp [ht']

lemma requestLayers_false_eq (t : Nat) (L : List Nat) (s : Scene)
    (evs : List Event) (hL : L.Nodup) :
    requestLayers false t L (s, evs) =
      Except.ok (applyColumn s t L, evs ++ colEvents s t L) := by
  induction L generalizing s evs with
  | nil => simp [requestLayers, applyColumn_nil, colEvents]
  | cons l0 ls ih =>
    have hnd := List.nodup_cons.mp hL
    simp only [requestLayers, requestStep_false_eq]
    rw [ih _ _ hnd.2]
    rw [applyColumn_setLayerPatch s t l0 ls hnd.1,
      colEvents_setLayerPatch s t l0 _ ls hnd.1, colEvents_cons,
      List.append_assoc]

lemma tilesEvents_cons (s : Scene) (t0 : Nat) (ts : List Nat) :
    tilesEvents s (t0 :: ts) =
      colEvents s t0 (List.range s.numLayers) ++ tilesEvents s ts := by
  simp [tilesEvents]

lemma colEvents_applyColumn (s : Scene) (t0 t : Nat) (L0 L : List Nat)
    (h : t ≠ t0) :
    colEvents (applyColumn s t0 L0) t L = colEvents s t L := by
  induction L with
  | nil => rfl
  | cons a as ih =>
    rw [colEvents_cons, colEvents_cons, ih]
    have heq : (applyColumn s t0 L0).imageLayers a t = s.imageLayers a t := by
      simp [applyColumn, h]
    rw [heq]

lemma tilesEvents_applyColumn (s : Scene) (t0 : Nat) (ts : List Nat)
    (hn : t0 ∉ ts) :
    tilesEvents (applyColumn s t0 (List.range s.numLayers)) ts =
      tilesEvents s ts := by
  induction ts with
  | nil => rfl
  | cons a as ih =>
    have hsplit : t0 ≠ a ∧ t0 ∉ as := by
      simpa [List.mem_cons, not_or] using hn
    rw [tilesEvents_cons, tilesEvents_cons, ih hsplit.2,
      colEvents_applyColumn s t0 a _ _ hsplit.1.symm]
    exact rfl

lemma applyTiles_nil (s : Scene) : applyTiles s [] = s := by
  unfold applyTiles
  refine Scene.ext rfl rfl rfl rfl rfl ?_ rfl rfl rfl rfl
  funext l t
  simp

lemma applyTiles_applyColumn (s : Scene) (t0 : Nat) (ts : List Nat)
    (hn : t0 ∉ ts) :
    applyTiles (applyColumn s t0 (List.range s.numLayers)) ts =
      applyTiles s (t0 :: ts) := by
  unfold applyTiles applyColumn
  refine Scene.ext rfl rfl rfl rfl rfl ?_ rfl rfl rfl rfl
  funext l t
  by_cases htm : t ∈ ts
  · have htt0 : t ≠ t0 := fun h => hn (h ▸ htm)
    by_cases hl : l < s.numLayers
    · simp [htm, hl, htt0, List.mem_cons, List.mem_range]
    · simp [htm, hl, htt0, List.mem_cons, List.mem_range]
  · by_cases ht0 : t = t0
    · subst ht0
      by_cases hl : l < s.numLayers <;>
        simp [htm, hl, List.mem_cons, List.mem_range]
    · simp [htm, ht0, List.mem_cons]

lemma requestTiles_cons_ok (v : Bool) (t0 : Nat) (ts : List Nat)
    (st st1 : Scene × List Event)
    (h : requestLayers v t0 (List.range st.1.numLayers) st = Except.ok st1) :
    requestTiles v (t0 :: ts) st = requestTiles v ts st1 := by
  simp only [requestTiles, h]

lemma requestTiles_false_eq (T : List Nat) (s : Scene) (evs : List Event)
    (hT : T.Nodup) :
    requestTiles false T (s, evs) =
      Except.ok (applyTiles s T, evs ++ tilesEvents s T) := by
  induction T generalizing s evs with
  | nil => simp [requestTiles, applyTiles_nil, tilesEvents]
  | cons t0 ts ih =>
    have hnd := List.nodup_cons.mp hT
    rw [requestTiles_cons_ok false t0 ts (s, evs) _
      (requestLayers_false_eq t0 (List.range s.numLayers) s evs (List.nodup_range _))]
    rw [ih _ _ hnd.2]
    rw [applyTiles_applyColumn s t0 ts hnd.1,
      tilesEvents_applyColumn s t0 ts hnd.1, tilesEvents_cons,
      List.append_assoc]

lemma progressTiles_fields (L : List Nat) (st : Scene × List Event) :
    bgEvents (progressTiles L st) = st.2 ∧
    (bgScene (progressTiles L st)).imageLayers = st.1.imageLayers ∧
    (bgScene (progressTiles L st)).numLayers = st.1.numLayers ∧
    (bgScene (progressTiles L st)).numTiles = st.1.numTiles ∧
    (bgScene (progressTiles L st)).geom = st.1.geom := by
  induction L generalizing st with
  | nil => exact ⟨rfl, rfl, rfl, rfl, rfl⟩
  | cons t ts ih =>
    simp only [progressTiles]
    by_cases h0 : st.1.numLayers = 0
    · simp [h0, bgScene, bgEvents]
    · simp only [h0, if_false]
      exact ih _

lemma drawBackground_false_spec (s : Scene) (rect : QRect)
    (hnd : (s.intersected rect).Nodup) :
    bgEvents (Scene.drawBackground false s rect) =
      tilesEvents s (s.intersected rect) ∧
    (bgScene (Scene.drawBackground false s rect)).imageLayers =
      (applyTiles s (s.intersected rect)).imageLayers ∧
    (bgScene (Scene.drawBackground false s rect)).numLayers = s.numLayers ∧
    (bgScene (Scene.drawBackground false s rect)).numTiles = s.numTiles ∧
    (bgScene (Scene.drawBackground false s rect)).geom = s.geom := by
  simp only [Scene.drawBackground]
  rw [requestTiles_false_eq (s.intersected rect) s [] hnd]
  have hp := progressTiles_fields (s.intersected rect)
    (applyTiles s (s.intersected rect), [] ++ tilesEvents s (s.intersected rect))
  simp only [List.nil_append] at hp ⊢
  exact hp

lemma mem_colEvents (s : Scene) (t' : Nat) (L : List Nat) (l t : Nat) :
    Event.request l t ∈ colEvents s t' L ↔
      (l ∈ L ∧ t = t' ∧ needsRequest (s.imageLayers l t')) := by
  unfold colEvents
  rw [List.mem_filterMap]
  constructor
  · rintro ⟨x, hx, hfx⟩
    by_cases hc : needsRequest (s.imageLayers x t')
    · rw [if_pos hc] at hfx
      injection hfx with h
      injection h with h1 h2
      subst h1
      subst h2
      exact ⟨hx, rfl, hc⟩
    · rw [if_neg hc] at hfx
      exact Option.noConfusion hfx
  · rintro ⟨hl, rfl, hc⟩
    exact ⟨l, hl, by rw [if_pos hc]⟩

lemma mem_tilesEvents (s : Scene) (T : List Nat) (l t : Nat) :
    Event.request l t ∈ tilesEvents s T ↔
      (t ∈ T ∧ l < s.numLayers ∧ needsRequest (s.imageLayers l t)) := by
  unfold tilesEvents
  rw [List.mem_flatten]
  constructor
  · rintro ⟨evs1, hevs, hmem⟩
    rw [List.mem_map] at hevs
    obtain ⟨t', ht', rfl⟩ := hevs
    obtain ⟨hl, rfl, hc⟩ := (mem_colEvents s t' _ l t).mp hmem
    exact ⟨ht', List.mem_range.mp hl, hc⟩
  · rintro ⟨hT, hl, hc⟩
    exact ⟨colEvents s t (List.range s.numLayers), List.mem_map_of_mem _ hT,
      (mem_colEvents s t _ l t).mpr ⟨List.mem_range.mpr hl, rfl, hc⟩⟩

lemma not_needsRequest_requestedPatch (p : TilePatch) :
    ¬ needsRequest (requestedPatch p) := by
  unfold requestedPatch
  by_cases h : needsRequest p
  · rw [if_pos h]
    intro hcon
    exact hcon.2 rfl
  · rw [if_neg h]
    intro hcon
    exact h ⟨hcon.1, hcon.2⟩

lemma requestedPatch_reqVer_of (p : TilePatch) (h : needsRequest p) :
    (requestedPatch p).reqVer = (requestedPatch p).dataVer := by
  unfold requestedPatch
  rw [if_pos h]

lemma invalidateRect_no_request (s : Scene) (rect : QRect) (l t : Nat) :
    Event.request l t ∉ (s.invalidateRect rect).2 := by
  unfold Scene.invalidateRect
  by_cases hv : rect.isValid
  · simp only [hv, if_true]
    rw [(invFold_fields (s.intersected rect) (s, [])).2.2.2.2.2.2]
    simp
  · simp only [hv, Bool.false_eq_true, if_false]
    rw [(invFold_fields ((fullResetScene s).intersected rect)
      (fullResetScene s, [Event.cancelAll])).2.2.2.2.2.2]
    simp

/-- C3: during a `drawBackground` paint pass (verbose flag off, and with the
tiling returning each intersected tile once), a recompute request keyed by
`(layerNr, tileId)` is emitted exactly when the tile is intersected, the
layer exists, and the patch satisfies `imgVer != dataVer` and
`reqVer != dataVer` under its lock; for each requested patch `reqVer` is
then set to `dataVer`, so a second paint pass over the same region issues
no request at all until a data version changes again, and a dirty-mark
(`_onLayerDirty`) itself never issues a request. -/
theorem C3_request_iff_and_dedup (s : Scene) (rect : QRect)
    (hnd : (s.intersected rect).Nodup) :
    (∀ l t,
      (Event.request l t ∈ bgEvents (Scene.drawBackground false s rect) ↔
        (t ∈ s.intersected rect ∧ l < s.numLayers ∧
          (s.imageLayers l t).imgVer ≠ (s.imageLayers l t).dataVer ∧
          (s.imageLayers l t).reqVer ≠ (s.imageLayers l t).dataVer)) ∧
      (Event.request l t ∈ bgEvents (Scene.drawBackground false s rect) →
        ((bgScene (Scene.drawBackground false s rect)).imageLayers l t).reqVer =
          ((bgScene (Scene.drawBackground false s rect)).imageLayers l t).dataVer)) ∧
    (∀ l t, Event.request l t ∉ bgEvents (Scene.drawBackground false
        (bgScene (Scene.drawBackground false s rect)) rect)) ∧
    (∀ layerNr l t, Event.request l t ∉ (Scene.onLayerDirty s layerNr rect).2) := by
  obtain ⟨hev, him, hnl, hnt, hg⟩ := drawBackground_false_spec s rect hnd
  refine ⟨?_, ?_, ?_⟩
  · intro l t
    constructor
    · rw [hev, mem_tilesEvents]
    · intro hmem
      rw [hev, mem_tilesEvents] at hmem
      have himlt := congrFun (congrFun him l) t
      rw [himlt]
      simp only [applyTiles]
      rw [if_pos ⟨hmem.1, hmem.2.1⟩]
      exact requestedPatch_reqVer_of _ hmem.2.2
  · intro l t hmem
    have hint : (bgScene (Scene.drawBackground false s rect)).intersected rect =
        s.intersected rect := by
      cases rect with
      | invalid => simp [Scene.intersected, hnt]
      | valid r => simp [Scene.intersected, congrFun hg r]
    have hnd' : ((bgScene (Scene.drawBackground false s rect)).intersected rect).Nodup := by
      rw [hint]; exact hnd
    obtain ⟨hev', _, _, _, _⟩ :=
      drawBackground_false_spec (bgScene (Scene.drawBackground false s rect)) rect hnd'
    rw [hev', hint] at hmem
    obtain ⟨hT, hl, hc⟩ := (mem_tilesEvents _ _ l t).mp hmem
    rw [hnl] at hl
    have himlt := congrFun (congrFun him l) t
    rw [himlt] at hc
    simp only [applyTiles] at hc
    rw [if_pos ⟨hT, hl⟩] at hc
    exact not_needsRequest_requestedPatch _ hc
  · intro layerNr l t
    simp only [Scene.onLayerDirty]
    exact invalidateRect_no_request _ rect l t

theorem C3_request_iff_and_dedup_witness :
    (exSceneStale.intersected QRect.invalid).Nodup ∧
    (Event.request 0 0 ∈ bgEvents (Scene.drawBackground false exSceneStale QRect.invalid) ↔
      (0 ∈ exSceneStale.intersected QRect.invalid ∧ 0 < exSceneStale.numLayers ∧
        (exSceneStale.imageLayers 0 0).imgVer ≠ (exSceneStale.imageLayers 0 0).dataVer ∧
        (exSceneStale.imageLayers 0 0).reqVer ≠ (exSceneStale.imageLayers 0 0).dataVer)) ∧
    (Event.request 0 0 ∉ bgEvents (Scene.drawBackground false
        (bgScene (Scene.drawBackground false exSceneStale QRect.invalid)) QRect.invalid)) := by
  have h := C3_request_iff_and_dedup exSceneStale QRect.invalid (by decide)
  exact ⟨by decide, (h.1 0 0).1, h.2.1 0 0⟩

end Volumina
